import Mathlib

set_option maxHeartbeats 1000000

/-!
Shallow embedding of the ADF (Augmented Dickey-Fuller) engine of
src/adf_test/src/enhanced_lib.rs.

Numeric model: f64 values are modelled as `FloatVal F` over a linear ordered
field F: a finite value `num x`, or the special values `nan`, `inf`, `ninf`,
with IEEE-754 comparison semantics (every comparison with `nan` is false).
Rounding and signed zero are not modelled; finite arithmetic is exact.
The regression pipeline works on exact rationals, lifting to ℝ only where the
source applies `sqrt` and `ln`.  Claims about the interpolation layer are
stated at F = ℚ, where everything evaluates.
-/

inductive FloatVal (F : Type) where
  | num (x : F)
  | nan
  | inf
  | ninf
deriving DecidableEq

/-- IEEE semantics of the f64 comparison a <= b (false whenever nan is involved). -/
def fle {F : Type} [LinearOrder F] : FloatVal F → FloatVal F → Bool
  | .nan, _ => false
  | _, .nan => false
  | .ninf, _ => true
  | _, .ninf => false
  | .num a, .num b => decide (a ≤ b)
  | _, .inf => true
  | .inf, _ => false

/-- IEEE semantics of the f64 comparison a < b. -/
def flt {F : Type} [LinearOrder F] : FloatVal F → FloatVal F → Bool
  | .nan, _ => false
  | _, .nan => false
  | .ninf, .ninf => false
  | .ninf, _ => true
  | _, .ninf => false
  | .num a, .num b => decide (a < b)
  | .inf, .inf => false
  | .num _, .inf => true
  | .inf, .num _ => false

/-- IEEE semantics of the f64 comparison a == b (nan is equal to nothing). -/
def feq {F : Type} [LinearOrder F] : FloatVal F → FloatVal F → Bool
  | .nan, _ => false
  | _, .nan => false
  | .num a, .num b => decide (a = b)
  | .inf, .inf => true
  | .ninf, .ninf => true
  | _, _ => false

/-- IEEE semantics of the f64 comparison a >= b. -/
def fge {F : Type} [LinearOrder F] (a b : FloatVal F) : Bool := fle b a

/-- IEEE f64 negation. -/
def fneg {F : Type} [Neg F] : FloatVal F → FloatVal F
  | .num a => .num (-a)
  | .nan => .nan
  | .inf => .ninf
  | .ninf => .inf

/-- IEEE f64 addition (exact on finite values). -/
def fadd {F : Type} [Add F] : FloatVal F → FloatVal F → FloatVal F
  | .nan, _ => .nan
  | _, .nan => .nan
  | .inf, .ninf => .nan
  | .ninf, .inf => .nan
  | .inf, _ => .inf
  | _, .inf => .inf
  | .ninf, _ => .ninf
  | _, .ninf => .ninf
  | .num a, .num b => .num (a + b)

/-- IEEE f64 subtraction, a - b = a + (-b). -/
def fsub {F : Type} [Add F] [Neg F] (a b : FloatVal F) : FloatVal F := fadd a (fneg b)

/-- IEEE f64 multiplication (exact on finite values). -/
def fmul {F : Type} [Mul F] [Zero F] [LinearOrder F] : FloatVal F → FloatVal F → FloatVal F
  | .nan, _ => .nan
  | _, .nan => .nan
  | .num a, .num b => .num (a * b)
  | .inf, .inf => .inf
  | .inf, .ninf => .ninf
  | .ninf, .inf => .ninf
  | .ninf, .ninf => .inf
  | .inf, .num b => if 0 < b then .inf else if b < 0 then .ninf else .nan
  | .num a, .inf => if 0 < a then .inf else if a < 0 then .ninf else .nan
  | .ninf, .num b => if 0 < b then .ninf else if b < 0 then .inf else .nan
  | .num a, .ninf => if 0 < a then .ninf else if a < 0 then .inf else .nan

/-- IEEE f64 division (exact on finite values; zero is treated as +0). -/
def fdiv {F : Type} [LinearOrderedField F] : FloatVal F → FloatVal F → FloatVal F
  | .nan, _ => .nan
  | _, .nan => .nan
  | .num a, .num b =>
      if b = 0 then (if a = 0 then .nan else if 0 < a then .inf else .ninf)
      else .num (a / b)
  | .num _, .inf => .num 0
  | .num _, .ninf => .num 0
  | .inf, .num b => if 0 ≤ b then .inf else .ninf
  | .ninf, .num b => if 0 ≤ b then .ninf else .inf
  | .inf, .inf => .nan
  | .inf, .ninf => .nan
  | .ninf, .inf => .nan
  | .ninf, .ninf => .nan

/-- The constant lookup table ADF_P_VALUE_LOOKUP of the source, as exact
rationals: the entries present in src/adf_test/src/enhanced_lib.rs, namely
(-4.98402287309096, 0.00002), (-4.95836394213414, 0.00004),
(2.34198462884487, 1.0), written with mkRat so that the kernel evaluates them. -/
def ADF_P_VALUE_LOOKUP : List (ℚ × ℚ) :=
  [(mkRat (-498402287309096) 100000000000000, mkRat 2 100000),
   (mkRat (-495836394213414) 100000000000000, mkRat 4 100000),
   (mkRat 234198462884487 100000000000000, 1)]

/-- Key (statistic) of table entry i. -/
def lookupKey (i : ℕ) : ℚ := (ADF_P_VALUE_LOOKUP.getD i (0, 0)).1

/-- Stored p-value of table entry i. -/
def lookupP (i : ℕ) : ℚ := (ADF_P_VALUE_LOOKUP.getD i (0, 0)).2

/-- Number of entries of the lookup table. -/
def tableLen : ℕ := ADF_P_VALUE_LOOKUP.length

/-- Result of the source's binary-search loop: an exact table hit, the final
interval index idx, or `crash`, the unsigned underflow of high = mid - 1 at
mid = 0 (a Rust panic: overflow check in debug, wrap and out-of-bounds index
in release).  `fuelOut` marks recursion-fuel exhaustion, which sufficient fuel
never reaches. -/
inductive BSRes (F : Type) where
  | exact (p : F)
  | interval (idx : ℕ)
  | crash
  | fuelOut
deriving DecidableEq

/-- The while-loop of interpolate_p_value: state (low, high, idx), structural
fuel first. -/
def bsLoop {F : Type} [LinearOrderedField F] (t : FloatVal F) :
    ℕ → ℕ → ℕ → ℕ → BSRes F
  | 0, _, _, _ => .fuelOut
  | fuel + 1, low, high, idx =>
    if low ≤ high then
      let mid := low + (high - low) / 2
      if feq (.num ((lookupKey mid : ℚ) : F)) t then .exact ((lookupP mid : ℚ) : F)
      else if flt (.num ((lookupKey mid : ℚ) : F)) t then bsLoop t fuel (mid + 1) high mid
      else if mid = 0 then .crash
      else bsLoop t fuel low (mid - 1) idx
    else .interval idx

/-- The linear-interpolation formula y1 + (t - x1) * (y2 - y1) / (x2 - x1)
between table entries idx and idx + 1. -/
def interpFormula {F : Type} [LinearOrderedField F] (t : FloatVal F) (idx : ℕ) : FloatVal F :=
  fadd (.num ((lookupP idx : ℚ) : F))
    (fdiv
      (fmul (fsub t (.num ((lookupKey idx : ℚ) : F)))
            (fsub (.num ((lookupP (idx + 1) : ℚ) : F)) (.num ((lookupP idx : ℚ) : F))))
      (fsub (.num ((lookupKey (idx + 1) : ℚ) : F)) (.num ((lookupKey idx : ℚ) : F))))

/-- interpolate_p_value of the source.  `none` models a Rust panic. -/
def interpolate_p_value {F : Type} [LinearOrderedField F] (t : FloatVal F) :
    Option (FloatVal F) :=
  if fle t (.num ((lookupKey 0 : ℚ) : F)) then some (.num ((lookupP 0 : ℚ) : F))
  else if fge t (.num ((lookupKey (tableLen - 1) : ℚ) : F)) then
    some (.num ((lookupP (tableLen - 1) : ℚ) : F))
  else
    match bsLoop t (tableLen + 1) 0 (tableLen - 1) 0 with
    | .exact p => some (.num p)
    | .interval idx => some (interpFormula t idx)
    | .crash => none
    | .fuelOut => none

/-- determine_stationarity of the source: p_value <= 0.05 && test_statistic < -2.86
(the constants 0.05 and -2.86, written with mkRat). -/
def determine_stationarity {F : Type} [LinearOrderedField F]
    (test_statistic p_value : FloatVal F) : Bool :=
  fle p_value (.num ((mkRat 5 100 : ℚ) : F)) &&
    flt test_statistic (.num ((mkRat (-286) 100 : ℚ) : F))

/-- create_critical_values_js of the source, as a plain association list:
the constants -3.43, -2.86, -2.57 written with mkRat. -/
def create_critical_values_js : List (String × ℚ) :=
  [("1%", mkRat (-343) 100), ("5%", mkRat (-286) 100), ("10%", mkRat (-257) 100)]

/-- The AdfResult record of the source (legacy entry point). -/
structure AdfResult (F : Type) where
  statistic : FloatVal F
  p_value : FloatVal F
  critical_values : List (String × ℚ)
  is_stationary : Bool
deriving DecidableEq

/-- get_adf_p_value_and_stationarity of the source.  `none` models a panic
propagating out of interpolate_p_value. -/
def get_adf_p_value_and_stationarity {F : Type} [LinearOrderedField F]
    (test_statistic : FloatVal F) : Option (AdfResult F) :=
  match interpolate_p_value test_statistic with
  | none => none
  | some p_value =>
    some ⟨test_statistic, p_value, create_critical_values_js,
      determine_stationarity test_statistic p_value⟩

/-!
The regression pipeline.  Input data (a Vec of f64) is modelled as a list of
exact rationals; the matrix algebra of the source is exact there.  The two
irrational operations of the source, sqrt (standard error) and ln (AIC), are
modelled in ℝ.  AIC bookkeeping values that the source initialises to the f64
INFINITY live in WithTop ℝ.
-/

/-- First differences: data.windows(2).map(w[1] - w[0]). -/
def diff_data (data : List ℚ) : List ℚ :=
  List.zipWith (fun a b => b - a) data data.tail

/-- Number of observations for a given lag order: the length of the
differenced series sliced from index lags. -/
def nObs (data : List ℚ) (lags : ℕ) : ℕ := ((diff_data data).drop lags).length

/-- Entry (i, j) of the design matrix built by calculate_adf_for_lags:
column 0 the constant 1, column 1 the lagged level data[lags + i], and for
j = 1 + l with 1 <= l <= lags the lagged difference diff_data[lags + i - l]
when lags + i >= l, else the structural zero of the zero-initialised matrix. -/
def designEntry (data : List ℚ) (lags : ℕ) (i j : ℕ) : ℚ :=
  if j = 0 then 1
  else if j = 1 then data.getD (lags + i) 0
  else if j - 1 ≤ lags + i then (diff_data data).getD (lags + i - (j - 1)) 0
  else 0

/-- The design-matrix builder of calculate_adf_for_lags: the feasibility
checks of the source (empty response slice, or fewer observations than
parameters), then the X matrix and response vector y. -/
def buildDesign (data : List ℚ) (lags : ℕ) :
    Option (Matrix (Fin (nObs data lags)) (Fin (2 + lags)) ℚ × (Fin (nObs data lags) → ℚ)) :=
  if (diff_data data).length ≤ lags then none
  else if ((diff_data data).drop lags).isEmpty then none
  else if nObs data lags < 2 + lags then none
  else some (Matrix.of fun i j => designEntry data lags i.1 j.1,
             fun i => ((diff_data data).drop lags).getD i.1 0)

/-- nalgebra's try_inverse, modelled exactly: the inverse det⁻¹ • adjugate
when the determinant is nonzero, no result when the matrix is singular. -/
def try_inverse {p : ℕ} (M : Matrix (Fin p) (Fin p) ℚ) : Option (Matrix (Fin p) (Fin p) ℚ) :=
  if M.det = 0 then none else some (M.det⁻¹ • M.adjugate)

/-- perform_ols_regression of the source: normal equations, inversion,
coefficients, and ssr as the dot product of the residual vector with itself. -/
def perform_ols_regression {m p : ℕ} (x : Matrix (Fin m) (Fin p) ℚ) (y : Fin m → ℚ) :
    Option ((Fin p → ℚ) × ℚ) :=
  match try_inverse (x.transpose * x) with
  | none => none
  | some xtx_inv =>
    let coefficients := xtx_inv.mulVec (x.transpose.mulVec y)
    let residuals := fun i => y i - x.mulVec coefficients i
    some (coefficients, Matrix.dotProduct residuals residuals)

/-- The AdfRegressionResult record of the source. -/
structure AdfRegressionResult where
  test_statistic : ℝ
  ssr : ℚ
  n_obs : ℕ
  n_params : ℕ

/-- calculate_adf_for_lags of the source: build the design matrix, run OLS,
then mse, the (X'X)⁻¹ based variance of the y_{t-1} coefficient, and the
guard std_err_1 > 1e-12 (a sqrt in ℝ is always finite, so the source's
is_finite conjunct holds).  `none` is the source's skip-this-lag signal. -/
noncomputable def calculate_adf_for_lags (data : List ℚ) (lags : ℕ) :
    Option AdfRegressionResult :=
  match buildDesign data lags with
  | none => none
  | some (x, y) =>
    match perform_ols_regression x y with
    | none => none
    | some (coefficients, ssr) =>
      let mse : ℚ := ssr / ((nObs data lags - (2 + lags) : ℕ) : ℚ)
      match try_inverse (x.transpose * x) with
      | none => none
      | some xtx_inv =>
        let var_coeff_1 : ℚ := mse * xtx_inv ⟨1, by omega⟩ ⟨1, by omega⟩
        let std_err_1 : ℝ := Real.sqrt (var_coeff_1 : ℝ)
        if (mkRat 1 1000000000000 : ℝ) < std_err_1 then
          some ⟨(coefficients ⟨1, by omega⟩ : ℝ) / std_err_1, ssr, nObs data lags, 2 + lags⟩
        else none

/-- calculate_aic of the source: n * ln(ssr / n) + 2 * k. -/
noncomputable def calculate_aic (ssr : ℚ) (n_obs n_params : ℕ) : ℝ :=
  (n_obs : ℝ) * Real.log ((ssr : ℝ) / (n_obs : ℝ)) + 2 * (n_params : ℝ)

/-- determine_lag_range of the source.  For "ols": min 12 ((n - 3) / 2) with
ℕ subtraction (= saturating_sub), then .max min_lags; the usize → u32 cast of
the source is lossless for every length a wasm32 Vec can have, so it is not
modelled.  Any other model tag gets the fixed range (0, 1). -/
def determine_lag_range (data : List ℚ) (model_type : String) : ℕ × ℕ :=
  match model_type with
  | "ols" => (0, max (min 12 ((data.length - 3) / 2)) 0)
  | _ => (0, 1)

/-- The four mutable selection variables of calculate_complete_adf_test's
lag loop: min_aic, optimal_test_statistic, optimal_lags_used, optimal_aic. -/
structure SelState where
  min_aic : WithTop ℝ
  stat : ℝ
  lags : ℕ
  opt_aic : WithTop ℝ

/-- One iteration of the lag-selection loop: skip an infeasible lag, else
update all four variables when aic < min_aic strictly. -/
noncomputable def selStep (data : List ℚ) (st : SelState) (lags : ℕ) : SelState :=
  match calculate_adf_for_lags data lags with
  | none => st
  | some r =>
    let aic := calculate_aic r.ssr r.n_obs r.n_params
    if (aic : WithTop ℝ) < st.min_aic then ⟨aic, r.test_statistic, lags, aic⟩ else st

/-- The initial selection state: min_aic = infinity, statistic 0.0, lag 0,
optimal_aic = infinity. -/
noncomputable def selInit : SelState := ⟨⊤, 0, 0, ⊤⟩

/-- The lag-selection loop for current_lags in min_lags..=max_lags. -/
noncomputable def selectLag (data : List ℚ) (min_lags max_lags : ℕ) : SelState :=
  (List.range' min_lags (max_lags + 1 - min_lags)).foldl (selStep data) selInit

/-- The CompleteAdfResult record of the source. -/
structure CompleteAdfResult where
  test_statistic : ℝ
  optimal_lags : ℕ
  aic_value : WithTop ℝ
  p_value : FloatVal ℝ
  critical_values : List (String × ℚ)
  is_stationary : Bool

/-- create_default_adf_result of the source: statistic 0.0, lag 0,
aic +infinity, p-value 1.0, not stationary. -/
noncomputable def create_default_adf_result : CompleteAdfResult :=
  ⟨0, 0, ⊤, .num 1, create_critical_values_js, false⟩

/-- calculate_complete_adf_test of the source.  `none` models a panic
(which the totality theorem below shows never happens). -/
noncomputable def calculate_complete_adf_test (data : List ℚ) (model_type : String) :
    Option CompleteAdfResult :=
  if data.length < 5 then some create_default_adf_result
  else
    let range := determine_lag_range data model_type
    let st := selectLag data range.1 range.2
    match interpolate_p_value (F := ℝ) (.num st.stat) with
    | none => none
    | some p_value =>
      some ⟨st.stat, st.lags, st.opt_aic, p_value, create_critical_values_js,
        determine_stationarity (.num st.stat) p_value⟩

/-- A concrete six-point series used to exercise the design-matrix builder. -/
def egData : List ℚ := [0, 1, 0, 1, 0, 1]

/-- The design matrix the builder returns on egData with lag order 1. -/
def egX : Matrix (Fin (nObs egData 1)) (Fin (2 + 1)) ℚ :=
  Matrix.of fun i j => designEntry egData 1 i.1 j.1

/-- The response vector the builder returns on egData with lag order 1. -/
def egY : Fin (nObs egData 1) → ℚ := fun i => ((diff_data egData).drop 1).getD i.1 0

/-- Row 0 of the egData design matrix. -/
def egRow : Fin (nObs egData 1) := ⟨0, by decide⟩

/-- A concrete 1 x 1 design matrix for the OLS regression. -/
def olsX : Matrix (Fin 1) (Fin 1) ℚ := Matrix.of fun _ _ => 2

/-- A concrete response for the OLS regression. -/
def olsY : Fin 1 → ℚ := fun _ => 4

/-- The coefficient vector of the regression of olsY on olsX. -/
def olsCoef : Fin 1 → ℚ := fun _ => 2

/-- The sum of squared residuals of that regression (an exact fit). -/
def olsSsr : ℚ := 0

/-- The alternating eight-point series of the spec's end-to-end scenario. -/
def selData : List ℚ := [1, 2, 1, 2, 1, 2, 1, 2]

/-- A five-point series on which lag order 0 is a feasible candidate of the
search (its range is [0, 1], and lag 1 has n_obs = n_params there). -/
def c2Data : List ℚ := [1, 3, 2, 5, 4]

/-- The design matrix the builder returns on c2Data with lag order 0. -/
def c2X : Matrix (Fin (nObs c2Data 0)) (Fin (2 + 0)) ℚ :=
  Matrix.of fun i j => designEntry c2Data 0 i.1 j.1

/-- The response vector the builder returns on c2Data with lag order 0. -/
def c2Y : Fin (nObs c2Data 0) → ℚ := fun i => ((diff_data c2Data).drop 0).getD i.1 0

/-- The OLS coefficients of the lag-0 regression on c2Data. -/
def c2Coef : Fin (2 + 0) → ℚ := ![117/35, -33/35]

/-- The lag-0 regression outcome on c2Data: test statistic
(-33/35) / sqrt(348/1225), ssr = 174/35, 4 observations, 2 parameters. -/
noncomputable def c2Reg : AdfRegressionResult :=
  ⟨((-33/35 : ℚ) : ℝ) / Real.sqrt ((348/1225 : ℚ) : ℝ), 174/35, 4, 2⟩

/-- The design matrix the builder returns on egData with lag order 0. -/
def egX0 : Matrix (Fin (nObs egData 0)) (Fin (2 + 0)) ℚ :=
  Matrix.of fun i j => designEntry egData 0 i.1 j.1

/-- The response vector the builder returns on egData with lag order 0. -/
def egY0 : Fin (nObs egData 0) → ℚ := fun i => ((diff_data egData).drop 0).getD i.1 0

/-- Row 0 of the lag-0 egData design matrix. -/
def egRow0 : Fin (nObs egData 0) := ⟨0, by decide⟩

/-!
Theorems.  First, sanity facts about the embedded constants: the mkRat forms
equal the decimal literals of the Rust source, and the table is sorted.
-/

theorem lookup_table_values :
    lookupKey 0 = -4.98402287309096 ∧ lookupP 0 = 0.00002 ∧
    lookupKey 1 = -4.95836394213414 ∧ lookupP 1 = 0.00004 ∧
    lookupKey 2 = 2.34198462884487 ∧ lookupP 2 = 1 := by
  refine ⟨?_, ?_, ?_, ?_, ?_, ?_⟩ <;>
    simp [lookupKey, lookupP, ADF_P_VALUE_LOOKUP, Rat.mkRat_eq_div] <;> norm_num

theorem lookup_table_sorted : lookupKey 0 < lookupKey 1 ∧ lookupKey 1 < lookupKey 2 := by
  decide

theorem tableLen_eq : tableLen = 3 := rfl

/-- Cast forms of the table ordering, for an arbitrary linear ordered field. -/
theorem castKey_lt_01 {F : Type} [LinearOrderedField F] :
    ((lookupKey 0 : ℚ) : F) < ((lookupKey 1 : ℚ) : F) := by
  rw [Rat.cast_lt]; decide

theorem castKey_lt_12 {F : Type} [LinearOrderedField F] :
    ((lookupKey 1 : ℚ) : F) < ((lookupKey 2 : ℚ) : F) := by
  rw [Rat.cast_lt]; decide

/-- One unfolding of the binary-search loop at positive fuel. -/
theorem bsLoop_succ {F : Type} [LinearOrderedField F] (t : FloatVal F)
    (fuel low high idx : ℕ) :
    bsLoop t (fuel + 1) low high idx =
      if low ≤ high then
        if feq (.num ((lookupKey (low + (high - low) / 2) : ℚ) : F)) t then
          .exact ((lookupP (low + (high - low) / 2) : ℚ) : F)
        else if flt (.num ((lookupKey (low + (high - low) / 2) : ℚ) : F)) t then
          bsLoop t fuel (low + (high - low) / 2 + 1) high (low + (high - low) / 2)
        else if low + (high - low) / 2 = 0 then .crash
        else bsLoop t fuel low (low + (high - low) / 2 - 1) idx
      else .interval idx := rfl

/-- Full evaluation of the binary search for a finite statistic strictly
between the smallest and largest keys. -/
theorem bsLoop_inside {F : Type} [LinearOrderedField F] (q : F)
    (h0 : ((lookupKey 0 : ℚ) : F) < q) (h2 : q < ((lookupKey 2 : ℚ) : F)) :
    bsLoop (.num q) 4 0 2 0 =
      if ((lookupKey 1 : ℚ) : F) = q then .exact ((lookupP 1 : ℚ) : F)
      else if ((lookupKey 1 : ℚ) : F) < q then .interval 1
      else .interval 0 := by
  rw [show (4 : ℕ) = 3 + 1 from rfl, bsLoop_succ]
  norm_num [feq, flt]
  rcases lt_trichotomy (((lookupKey 1 : ℚ) : F)) q with h1 | h1 | h1
  · rw [if_neg (by exact fun h => absurd h (ne_of_lt h1)), if_pos h1,
      show (3 : ℕ) = 2 + 1 from rfl, bsLoop_succ]
    norm_num [feq, flt]
    rw [if_neg (by exact fun h => absurd h (ne_of_gt h2)), if_neg (not_lt.mpr (le_of_lt h2)),
      show (2 : ℕ) = 1 + 1 from rfl, bsLoop_succ]
    norm_num
    rw [if_neg (by exact fun h => absurd h (ne_of_lt h1)), if_pos h1]
  · rw [if_pos h1, if_pos h1]
  · rw [if_neg (by exact fun h => absurd h (ne_of_gt h1)), if_neg (not_lt.mpr (le_of_lt h1)),
      show (3 : ℕ) = 2 + 1 from rfl, bsLoop_succ]
    norm_num [feq, flt]
    rw [if_neg (by exact fun h => absurd h (ne_of_lt h0)), if_pos h0,
      show (2 : ℕ) = 1 + 1 from rfl, bsLoop_succ]
    norm_num
    rw [if_neg (by exact fun h => absurd h (ne_of_gt h1)),
      if_neg (not_lt.mpr (le_of_lt h1))]

/-- interpolate_p_value always returns a value on a finite input. -/
theorem interp_num_isSome {F : Type} [LinearOrderedField F] (q : F) :
    (interpolate_p_value (.num q)).isSome := by
  unfold interpolate_p_value
  by_cases hc0 : q ≤ ((lookupKey 0 : ℚ) : F)
  · simp [fle, hc0]
  · by_cases hc2 : ((lookupKey (tableLen - 1) : ℚ) : F) ≤ q
    · simp [fle, fge, hc0, hc2]
    · have h0 : ((lookupKey 0 : ℚ) : F) < q := not_le.mp hc0
      have h2 : q < ((lookupKey (tableLen - 1) : ℚ) : F) := not_le.mp hc2
      rw [tableLen_eq] at h2 ⊢
      norm_num
      rw [bsLoop_inside q h0 h2]
      simp [fle, fge, hc0]
      norm_num at h2
      rw [if_neg (not_le.mpr h2)]
      by_cases h1 : ((lookupKey 1 : ℚ) : F) = q
      · simp [h1]
      · by_cases h1' : ((lookupKey 1 : ℚ) : F) < q <;> simp [h1, h1']

/-- interpolate_p_value clamps positive infinity to the last table p-value. -/
theorem interp_inf_isSome {F : Type} [LinearOrderedField F] :
    (interpolate_p_value (F := F) .inf).isSome := by
  simp [interpolate_p_value, fle, fge]

/-- interpolate_p_value clamps negative infinity to the first table p-value. -/
theorem interp_ninf_isSome {F : Type} [LinearOrderedField F] :
    (interpolate_p_value (F := F) .ninf).isSome := by
  simp [interpolate_p_value, fle, fge]

/-- C3: the stationarity verdict is true exactly when p_value <= 0.05 and
test_statistic < -2.86, and the boundary pair (-2.86, 0.05) is classified
not stationary because -2.86 < -2.86 fails. -/
theorem stationarity_rule (t p : ℚ) :
    (determine_stationarity (F := ℚ) (.num t) (.num p) = true ↔ p ≤ 0.05 ∧ t < -2.86) ∧
    determine_stationarity (F := ℚ) (.num (-2.86)) (.num 0.05) = false := by
  have h5 : (mkRat 5 100 : ℚ) = 0.05 := by rw [Rat.mkRat_eq_div]; norm_num
  have h286 : (mkRat (-286) 100 : ℚ) = -2.86 := by rw [Rat.mkRat_eq_div]; norm_num
  constructor
  · simp [determine_stationarity, fle, flt, Rat.cast_id, h5, h286]
  · simp [determine_stationarity, fle, flt, Rat.cast_id, h5, h286]

/-- C4: for "ols" the lag range is (0, min 12 ((n - 3) / 2)) with saturating
subtraction, so min_lag = 0 and max_lag <= 12, and max_lag = 0 when n < 3;
every other model tag gets exactly (0, 1). -/
theorem lag_range_rule (data : List ℚ) (mt : String) (hmt : mt ≠ "ols") :
    determine_lag_range data "ols" = (0, min 12 ((data.length - 3) / 2)) ∧
    (determine_lag_range data "ols").1 = 0 ∧
    (determine_lag_range data "ols").2 ≤ 12 ∧
    (data.length < 3 → (determine_lag_range data "ols").2 = 0) ∧
    determine_lag_range data mt = (0, 1) := by
  have hols : determine_lag_range data "ols" = (0, min 12 ((data.length - 3) / 2)) := by
    simp [determine_lag_range]
  have hdef : determine_lag_range data mt = (0, 1) := by
    unfold determine_lag_range
    split <;> first | rfl | simp_all
  refine ⟨hols, by rw [hols], by rw [hols]; simp, fun h3 => by rw [hols]; simp; omega, hdef⟩

/-- C6: a statistic at or below the smallest table key returns that key's
p-value, and a statistic at or above the largest table key returns that
key's p-value, which is 1.0 in the reference table. -/
theorem clamp_low_high (q q' : ℚ) (hlo : q ≤ lookupKey 0)
    (hhi : lookupKey (tableLen - 1) ≤ q') :
    interpolate_p_value (F := ℚ) (.num q) = some (.num (lookupP 0)) ∧
    interpolate_p_value (F := ℚ) (.num q') = some (.num 1) := by
  constructor
  · simp [interpolate_p_value, fle, Rat.cast_id, hlo]
  · have hne : ¬ (q' ≤ lookupKey 0) := by
      rw [tableLen_eq] at hhi
      norm_num at hhi
      have h01 := lookup_table_sorted.1
      have h12 := lookup_table_sorted.2
      push_neg
      linarith
    simp [interpolate_p_value, fle, fge, Rat.cast_id, hne, hhi]
    decide

theorem clamp_low_high_witness :
    ((-5 : ℚ) ≤ lookupKey 0) ∧ (lookupKey (tableLen - 1) ≤ (3 : ℚ)) ∧
    (interpolate_p_value (F := ℚ) (.num (-5)) = some (.num (lookupP 0)) ∧
      interpolate_p_value (F := ℚ) (.num 3) = some (.num 1)) :=
  ⟨by decide, by decide, clamp_low_high (-5) 3 (by decide) (by decide)⟩

/-- C7: a statistic exactly equal to a table key gets exactly that key's
stored p-value, from interpolate_p_value and through the legacy entry point. -/
theorem exact_key_pvalue (i : ℕ) (h : i < tableLen) :
    interpolate_p_value (F := ℚ) (.num (lookupKey i)) = some (.num (lookupP i)) ∧
    (get_adf_p_value_and_stationarity (F := ℚ) (.num (lookupKey i))).map AdfResult.p_value =
      some (.num (lookupP i)) := by
  rw [tableLen_eq] at h
  interval_cases i <;> exact ⟨by decide, by decide⟩

theorem exact_key_pvalue_witness :
    (1 < tableLen) ∧
    (interpolate_p_value (F := ℚ) (.num (lookupKey 1)) = some (.num (lookupP 1)) ∧
      (get_adf_p_value_and_stationarity (F := ℚ) (.num (lookupKey 1))).map AdfResult.p_value =
        some (.num (lookupP 1))) :=
  ⟨by decide, exact_key_pvalue 1 (by decide)⟩

/-- C10: for a finite statistic strictly between the smallest and largest
keys the binary search ends in an exact hit or an interval index
idx <= tableLen - 2 (so idx and idx + 1 are in bounds), never in the
mid = 0 underflow nor out of fuel, and interpolate_p_value returns a value. -/
theorem bsearch_safe (q : ℚ) (h0 : lookupKey 0 < q) (h2 : q < lookupKey (tableLen - 1)) :
    ((∃ p, bsLoop (F := ℚ) (.num q) (tableLen + 1) 0 (tableLen - 1) 0 = .exact p) ∨
      (∃ idx, bsLoop (F := ℚ) (.num q) (tableLen + 1) 0 (tableLen - 1) 0 = .interval idx ∧
        idx ≤ tableLen - 2)) ∧
    bsLoop (F := ℚ) (.num q) (tableLen + 1) 0 (tableLen - 1) 0 ≠ .crash ∧
    bsLoop (F := ℚ) (.num q) (tableLen + 1) 0 (tableLen - 1) 0 ≠ .fuelOut ∧
    (interpolate_p_value (.num q)).isSome := by
  rw [tableLen_eq]
  norm_num
  have h0' : (Rat.cast (lookupKey 0) : ℚ) < q := by rw [Rat.cast_id]; exact h0
  have h2' : q < (Rat.cast (lookupKey 2) : ℚ) := by
    rw [Rat.cast_id]; rwa [tableLen_eq] at h2
  rw [bsLoop_inside q h0' h2']
  refine ⟨?_, ?_, ?_, interp_num_isSome q⟩ <;>
    simp only [Rat.cast_id] <;>
    by_cases h1 : lookupKey 1 = q <;>
      by_cases h1' : lookupKey 1 < q <;>
        simp [h1, h1']

theorem bsearch_safe_witness :
    (lookupKey 0 < (0 : ℚ)) ∧ ((0 : ℚ) < lookupKey (tableLen - 1)) ∧
    (((∃ p, bsLoop (F := ℚ) (.num 0) (tableLen + 1) 0 (tableLen - 1) 0 = .exact p) ∨
      (∃ idx, bsLoop (F := ℚ) (.num 0) (tableLen + 1) 0 (tableLen - 1) 0 = .interval idx ∧
        idx ≤ tableLen - 2)) ∧
    bsLoop (F := ℚ) (.num 0) (tableLen + 1) 0 (tableLen - 1) 0 ≠ .crash ∧
    bsLoop (F := ℚ) (.num 0) (tableLen + 1) 0 (tableLen - 1) 0 ≠ .fuelOut ∧
    (interpolate_p_value (.num (0 : ℚ))).isSome) :=
  ⟨by decide, by decide, bsearch_safe 0 (by decide) (by decide)⟩

/-- C1 (amended): calculate_complete_adf_test always returns a complete
result record, and the legacy entry point does so for every non-NaN
test_statistic (finite or infinite); the NaN case panics, see the
counterexample theorem. -/
theorem entry_points_total :
    (∀ (data : List ℚ) (model_type : String),
      (calculate_complete_adf_test data model_type).isSome) ∧
    (∀ t : FloatVal ℚ, t ≠ .nan → (get_adf_p_value_and_stationarity t).isSome) := by
  constructor
  · intro data mt
    by_cases h5 : data.length < 5
    · simp [calculate_complete_adf_test, h5]
    · rcases hsome : interpolate_p_value (F := ℝ)
        (.num (selectLag data (determine_lag_range data mt).1
          (determine_lag_range data mt).2).stat) with _ | p
      · have := interp_num_isSome (F := ℝ)
          (selectLag data (determine_lag_range data mt).1
            (determine_lag_range data mt).2).stat
        rw [hsome] at this
        simp at this
      · simp [calculate_complete_adf_test, h5, hsome]
  · intro t ht
    cases t with
    | num q =>
      obtain ⟨p, hp⟩ := Option.isSome_iff_exists.mp (interp_num_isSome (F := ℚ) q)
      simp [get_adf_p_value_and_stationarity, hp]
    | nan => exact absurd rfl ht
    | inf =>
      obtain ⟨p, hp⟩ := Option.isSome_iff_exists.mp (interp_inf_isSome (F := ℚ))
      simp [get_adf_p_value_and_stationarity, hp]
    | ninf =>
      obtain ⟨p, hp⟩ := Option.isSome_iff_exists.mp (interp_ninf_isSome (F := ℚ))
      simp [get_adf_p_value_and_stationarity, hp]

/-- C1 counterexample: on a NaN test_statistic the legacy entry point
returns no record at all: the binary search walks to mid = 0 (every
comparison with NaN is false) and the unsigned high = mid - 1 underflows,
a panic. -/
theorem legacy_entry_nan_none :
    get_adf_p_value_and_stationarity (F := ℚ) .nan = none ∧
    bsLoop (F := ℚ) .nan (tableLen + 1) 0 (tableLen - 1) 0 = .crash := by
  exact ⟨by decide, by decide⟩

/-- C5: fewer than 5 observations short-circuit to the fixed degenerate
outcome: statistic 0.0, lag 0, aic +infinity (⊤), p-value 1.0, not
stationary. -/
theorem short_series_default (data : List ℚ) (model_type : String) (h : data.length < 5) :
    calculate_complete_adf_test data model_type = some create_default_adf_result ∧
    create_default_adf_result.test_statistic = 0 ∧
    create_default_adf_result.optimal_lags = 0 ∧
    create_default_adf_result.aic_value = ⊤ ∧
    create_default_adf_result.p_value = .num 1 ∧
    create_default_adf_result.is_stationary = false := by
  refine ⟨?_, rfl, rfl, rfl, rfl, rfl⟩
  unfold calculate_complete_adf_test
  rw [if_pos h]

theorem short_series_default_witness :
    (([1, 2, 1, 2] : List ℚ).length < 5) ∧
    (calculate_complete_adf_test [1, 2, 1, 2] "ols" = some create_default_adf_result ∧
      create_default_adf_result.test_statistic = 0 ∧
      create_default_adf_result.optimal_lags = 0 ∧
      create_default_adf_result.aic_value = ⊤ ∧
      create_default_adf_result.p_value = .num 1 ∧
      create_default_adf_result.is_stationary = false) :=
  ⟨by decide, short_series_default [1, 2, 1, 2] "ols" (by decide)⟩

/-- C9 helper: the example regression evaluates as stated. -/
theorem ols_eg_eval : perform_ols_regression olsX olsY = some (olsCoef, olsSsr) := by
  unfold perform_ols_regression try_inverse
  norm_num [Matrix.det_fin_one, Matrix.adjugate_fin_one, Matrix.mulVec, Matrix.dotProduct,
    Matrix.mul_apply, Matrix.transpose_apply, Matrix.smul_apply, Matrix.one_apply,
    Fin.sum_univ_one, Matrix.of_apply, funext_iff, Fin.forall_fin_one,
    olsX, olsY, olsCoef, olsSsr]

/-- C9: a successful OLS regression returns as ssr the dot product of the
residual vector y - X·coefficients with itself, the sum of squared
residuals, which is non-negative; exact rational arithmetic, so without a
floating-point tolerance. -/
theorem ols_ssr_spec {m p : ℕ} (X : Matrix (Fin m) (Fin p) ℚ) (y : Fin m → ℚ)
    (c : Fin p → ℚ) (ssr : ℚ)
    (hsome : perform_ols_regression X y = some (c, ssr)) :
    ssr = ∑ i, (y i - X.mulVec c i) ^ 2 ∧ 0 ≤ ssr := by
  unfold perform_ols_regression at hsome
  rcases htry : try_inverse (X.transpose * X) with _ | M
  · rw [htry] at hsome
    simp at hsome
  · rw [htry] at hsome
    simp only [Option.some.injEq, Prod.mk.injEq] at hsome
    obtain ⟨hc, hssr⟩ := hsome
    subst hc
    constructor
    · rw [← hssr]
      unfold Matrix.dotProduct
      exact Finset.sum_congr rfl fun i _ => (pow_two _).symm
    · rw [← hssr]
      exact Finset.sum_nonneg fun i _ => mul_self_nonneg _

theorem ols_ssr_spec_witness :
    (perform_ols_regression olsX olsY = some (olsCoef, olsSsr)) ∧
    (olsSsr = ∑ i, (olsY i - olsX.mulVec olsCoef i) ^ 2 ∧ 0 ≤ olsSsr) :=
  ⟨ols_eg_eval, ols_ssr_spec olsX olsY olsCoef olsSsr ols_eg_eval⟩

/-- C8: the design-matrix builder signals infeasible (returns no matrix)
exactly when the sliced response is empty or n_obs < n_params = 2 + lags;
in every returned matrix, every row i has column 0 = 1, column 1 =
Series[lags + i], and for every j with 1 <= j <= lags, column 1 + j =
DifferencedSeries[lags + i - j] when lags + i >= j and 0 otherwise
(zero padding; no row is dropped). -/
theorem design_matrix_spec (data : List ℚ) (lags : ℕ) :
    ((buildDesign data lags).isSome ↔
      ¬ ((diff_data data).drop lags).isEmpty ∧ 2 + lags ≤ nObs data lags) ∧
    (∀ X y, buildDesign data lags = some (X, y) → ∀ i : Fin (nObs data lags),
      X i ⟨0, by omega⟩ = 1 ∧
      X i ⟨1, by omega⟩ = data.getD (lags + i.1) 0 ∧
      ∀ j, 1 ≤ j → ∀ hj : j ≤ lags,
        X i ⟨1 + j, by omega⟩ =
          (if j ≤ lags + i.1 then (diff_data data).getD (lags + i.1 - j) 0 else 0)) := by
  constructor
  · unfold buildDesign
    split_ifs with h1 h2 h3
    · simp only [Option.isSome_none, Bool.false_eq_true, false_iff]
      intro hcon
      exact hcon.1 (by simp [List.isEmpty_iff, List.drop_eq_nil_iff, h1])
    · simp only [Option.isSome_none, Bool.false_eq_true, false_iff]
      intro hcon
      exact hcon.1 h2
    · simp only [Option.isSome_none, Bool.false_eq_true, false_iff]
      intro hcon
      omega
    · simp only [Option.isSome_some, true_iff]
      exact ⟨h2, by omega⟩
  · intro X y hsome i
    have hX : X = Matrix.of fun a b => designEntry data lags a.1 b.1 := by
      unfold buildDesign at hsome
      split_ifs at hsome
      simp only [Option.some.injEq, Prod.mk.injEq] at hsome
      exact hsome.1.symm
    subst hX
    refine ⟨by simp [designEntry], by simp [designEntry], ?_⟩
    intro j hj1 hj2
    show designEntry data lags i.1 (1 + j) = _
    unfold designEntry
    rw [if_neg (by omega), if_neg (by omega)]
    have hjj : 1 + j - 1 = j := by omega
    rw [hjj]

theorem design_matrix_spec_witness :
    ((buildDesign egData 5).isSome ↔
      ¬ ((diff_data egData).drop 5).isEmpty ∧ 2 + 5 ≤ nObs egData 5) ∧
    buildDesign egData 5 = none ∧
    buildDesign egData 1 = some (egX, egY) ∧
    (egX egRow ⟨0, by omega⟩ = 1 ∧
      egX egRow ⟨1, by omega⟩ = egData.getD (1 + egRow.1) 0 ∧
      egX egRow ⟨1 + 1, by omega⟩ =
        (if 1 ≤ 1 + egRow.1 then (diff_data egData).getD (1 + egRow.1 - 1) 0 else 0)) ∧
    buildDesign egData 0 = some (egX0, egY0) ∧
    (egX0 egRow0 ⟨0, by omega⟩ = 1 ∧
      egX0 egRow0 ⟨1, by omega⟩ = egData.getD (0 + egRow0.1) 0) := by
  obtain ⟨e0, e1, ej⟩ := (design_matrix_spec egData 1).2 egX egY rfl egRow
  obtain ⟨f0, f1, _⟩ := (design_matrix_spec egData 0).2 egX0 egY0 rfl egRow0
  exact ⟨(design_matrix_spec egData 5).1, rfl, rfl, ⟨e0, e1, ej 1 (le_refl 1) (le_refl 1)⟩,
    rfl, f0, f1⟩

/-- Both branches of determine_lag_range put min_lag = 0. -/
theorem lag_range_fst_zero (data : List ℚ) (mt : String) :
    (determine_lag_range data mt).1 = 0 := by
  unfold determine_lag_range
  split <;> rfl

/-- Invariants of the lag-selection fold: the optimal-aic copy tracks
min_aic; a finite min_aic is achieved at a visited feasible lag below the
cursor; min_aic never increases; an unchanged min_aic means an unchanged
state (updates are strict); and min_aic is a lower bound of every visited
feasible lag's AIC, with ties resolved to the lowest lag. -/
theorem selFold_spec (data : List ℚ) :
    ∀ (len a : ℕ) (st : SelState),
      st.opt_aic = st.min_aic →
      (st.min_aic ≠ ⊤ → st.lags < a ∧ ∃ r, calculate_adf_for_lags data st.lags = some r ∧
        st.min_aic = (calculate_aic r.ssr r.n_obs r.n_params : WithTop ℝ)) →
      ∀ st', (List.range' a len).foldl (selStep data) st = st' →
      (st'.opt_aic = st'.min_aic) ∧
      (st'.min_aic ≠ ⊤ → st'.lags < a + len ∧
        ∃ r, calculate_adf_for_lags data st'.lags = some r ∧
          st'.min_aic = (calculate_aic r.ssr r.n_obs r.n_params : WithTop ℝ)) ∧
      st'.min_aic ≤ st.min_aic ∧
      (st'.min_aic = st.min_aic → st' = st) ∧
      (∀ l, a ≤ l → l < a + len → ∀ r, calculate_adf_for_lags data l = some r →
        st'.min_aic ≤ (calculate_aic r.ssr r.n_obs r.n_params : WithTop ℝ) ∧
        (st'.min_aic = (calculate_aic r.ssr r.n_obs r.n_params : WithTop ℝ) →
          st'.lags ≤ l)) := by
  intro len
  induction len with
  | zero =>
    intro a st h1 h2 st' hst'
    simp only [List.range', List.foldl_nil] at hst'
    subst hst'
    refine ⟨h1, fun hne => ⟨by have := (h2 hne).1; omega, (h2 hne).2⟩, le_refl _,
      fun _ => rfl, ?_⟩
    intro l hal hla
    omega
  | succ len ih =>
    intro a st h1 h2 st' hst'
    rw [List.range'_succ] at hst'
    simp only [List.foldl_cons] at hst'
    rcases hc : calculate_adf_for_lags data a with _ | r
    · have hs1 : selStep data st a = st := by simp [selStep, hc]
      rw [hs1] at hst'
      obtain ⟨g1, g2, g3, g4, g5⟩ :=
        ih (a + 1) st h1 (fun hne => ⟨by have := (h2 hne).1; omega, (h2 hne).2⟩) st' hst'
      refine ⟨g1, fun hne => ⟨by have := (g2 hne).1; omega, (g2 hne).2⟩, g3, g4, ?_⟩
      intro l hal hla r' hr'
      rcases eq_or_lt_of_le hal with heq | hlt'
      · rw [← heq, hc] at hr'
        exact absurd hr' (by simp)
      · exact g5 l hlt' (by omega) r' hr'
    · by_cases hlt : (calculate_aic r.ssr r.n_obs r.n_params : WithTop ℝ) < st.min_aic
      · have hs1 : selStep data st a =
            ⟨(calculate_aic r.ssr r.n_obs r.n_params : WithTop ℝ), r.test_statistic, a,
              (calculate_aic r.ssr r.n_obs r.n_params : WithTop ℝ)⟩ := by
          simp [selStep, hc, hlt]
        rw [hs1] at hst'
        obtain ⟨g1, g2, g3, g4, g5⟩ := ih (a + 1)
          ⟨(calculate_aic r.ssr r.n_obs r.n_params : WithTop ℝ), r.test_statistic, a,
            (calculate_aic r.ssr r.n_obs r.n_params : WithTop ℝ)⟩
          rfl (fun _ => ⟨Nat.lt_succ_self a, r, hc, rfl⟩) st' hst'
      
        refine ⟨g1, fun hne => ⟨by have := (g2 hne).1; omega, (g2 hne).2⟩,
          le_trans g3 (le_of_lt hlt),
          fun heq => absurd heq (ne_of_lt (lt_of_le_of_lt g3 hlt)), ?_⟩
        intro l hal hla r' hr'
        rcases eq_or_lt_of_le hal with heq | hlt'
        · rw [← heq, hc] at hr'
          obtain hrr : r = r' := by injection hr'
          subst hrr
          refine ⟨g3, fun htie => ?_⟩
          have := g4 htie
          rw [this]
          show a ≤ l
          omega
        · exact g5 l hlt' (by omega) r' hr'
      · have hs1 : selStep data st a = st := by simp [selStep, hc, hlt]
        rw [hs1] at hst'
        obtain ⟨g1, g2, g3, g4, g5⟩ :=
          ih (a + 1) st h1 (fun hne => ⟨by have := (h2 hne).1; omega, (h2 hne).2⟩) st' hst'
        refine ⟨g1, fun hne => ⟨by have := (g2 hne).1; omega, (g2 hne).2⟩, g3, g4, ?_⟩
        intro l hal hla r' hr'
        rcases eq_or_lt_of_le hal with heq | hlt'
        · rw [← heq, hc] at hr'
          obtain hrr : r = r' := by injection hr'
          subst hrr
          have hle : st'.min_aic ≤ (calculate_aic r.ssr r.n_obs r.n_params : WithTop ℝ) :=
            le_trans g3 (not_lt.mp hlt)
          refine ⟨hle, fun htie => ?_⟩
          have hmeq : st'.min_aic = st.min_aic :=
            le_antisymm g3 (by rw [htie]; exact not_lt.mp hlt)
          have hss : st' = st := g4 hmeq
          have hne : st.min_aic ≠ ⊤ := by
            rw [← hmeq, htie]
            exact WithTop.coe_ne_top
          have := (h2 hne).1
          rw [hss]
          omega
        · exact g5 l hlt' (by omega) r' hr'

/-- C2: on a series of length at least 5, the reported lag's AIC is a lower
bound of the AIC of every feasible candidate lag of the search range, an
exactly tied candidate can only sit at or above the reported lag, and when a
feasible candidate exists the reported aic_value is the AIC of the reported
lag, itself inside the search range. -/
theorem aic_minimality (data : List ℚ) (model_type : String) (hlen : 5 ≤ data.length) :
    ∀ res, calculate_complete_adf_test data model_type = some res →
    ∀ l, (determine_lag_range data model_type).1 ≤ l →
      l ≤ (determine_lag_range data model_type).2 →
    ∀ r, calculate_adf_for_lags data l = some r →
      res.aic_value ≤ (calculate_aic r.ssr r.n_obs r.n_params : WithTop ℝ) ∧
      (res.aic_value = (calculate_aic r.ssr r.n_obs r.n_params : WithTop ℝ) →
        res.optimal_lags ≤ l) ∧
      ∃ rb, calculate_adf_for_lags data res.optimal_lags = some rb ∧
        res.aic_value = (calculate_aic rb.ssr rb.n_obs rb.n_params : WithTop ℝ) ∧
        res.optimal_lags ≤ (determine_lag_range data model_type).2 := by
  intro res hres l hl1 hl2 r hr
  unfold calculate_complete_adf_test at hres
  rw [if_neg (not_lt.mpr hlen)] at hres
  dsimp only at hres
  rcases hp : interpolate_p_value (F := ℝ)
      (.num (selectLag data (determine_lag_range data model_type).1
        (determine_lag_range data model_type).2).stat) with _ | p
  · have := interp_num_isSome (F := ℝ)
      (selectLag data (determine_lag_range data model_type).1
        (determine_lag_range data model_type).2).stat
    rw [hp] at this
    simp at this
  · rw [hp] at hres
    simp only [Option.some.injEq] at hres
    obtain ⟨g1, g2, g3, g4, g5⟩ := selFold_spec data
      ((determine_lag_range data model_type).2 + 1 - (determine_lag_range data model_type).1)
      (determine_lag_range data model_type).1 selInit rfl
      (fun hne => absurd rfl hne)
      (selectLag data (determine_lag_range data model_type).1
        (determine_lag_range data model_type).2) rfl
    have hm0 : (determine_lag_range data model_type).1 = 0 := lag_range_fst_zero data model_type
    obtain ⟨hmin_le, htie⟩ := g5 l hl1 (by omega) r hr
    have haic : res.aic_value =
        (selectLag data (determine_lag_range data model_type).1
          (determine_lag_range data model_type).2).min_aic := by
      rw [← hres]
      exact g1
    have hlag : res.optimal_lags =
        (selectLag data (determine_lag_range data model_type).1
          (determine_lag_range data model_type).2).lags := by
      rw [← hres]
    refine ⟨by rw [haic]; exact hmin_le, fun he => by rw [hlag]; exact htie (by rw [← haic]; exact he), ?_⟩
    have hnet : (selectLag data (determine_lag_range data model_type).1
        (determine_lag_range data model_type).2).min_aic ≠ ⊤ := by
      intro htop
      rw [htop] at hmin_le
      exact absurd (top_le_iff.mp hmin_le) WithTop.coe_ne_top
    obtain ⟨hbound, rb, hrb, hval⟩ := g2 hnet
    refine ⟨rb, by rw [hlag]; exact hrb, by rw [haic]; exact hval, by rw [hlag]; omega⟩

/-- C2 helper: the lag-0 design matrix and response on c2Data. -/
theorem c2_buildDesign : buildDesign c2Data 0 = some (c2X, c2Y) := rfl

/-- C2 helper: the lag-0 normal-equations matrix on c2Data. -/
theorem c2_xtx : c2X.transpose * c2X = !![4, 11; 11, 39] := by
  show (Matrix.of fun (i : Fin 4) (j : Fin 2) => designEntry c2Data 0 i.1 j.1).transpose *
      (Matrix.of fun (i : Fin 4) (j : Fin 2) => designEntry c2Data 0 i.1 j.1) =
      !![4, 11; 11, 39]
  ext i j
  fin_cases i <;> fin_cases j <;>
    simp [Matrix.mul_apply, Fin.sum_univ_four, designEntry, c2Data,
      Matrix.transpose_apply, List.getD] <;>
    norm_num [show ((3 : Fin 4) : ℕ) = 3 from rfl]

/-- C2 helper: the inverse of the lag-0 normal-equations matrix on c2Data. -/
theorem c2_try_inverse : try_inverse (c2X.transpose * c2X) =
    some ((35 : ℚ)⁻¹ • !![39, -11; -11, 4]) := by
  rw [c2_xtx]
  unfold try_inverse
  rw [Matrix.det_fin_two_of, Matrix.adjugate_fin_two_of]
  norm_num

/-- C2 helper: the lag-0 projected response on c2Data. -/
theorem c2_xty : c2X.transpose.mulVec c2Y = ![3, 0] := by
  show (Matrix.of fun (i : Fin 4) (j : Fin 2) =>
      designEntry c2Data 0 i.1 j.1).transpose.mulVec
      (fun (i : Fin 4) => ((diff_data c2Data).drop 0).getD i.1 0) = ![3, 0]
  funext i
  fin_cases i <;>
    simp [Matrix.mulVec, Matrix.dotProduct, Fin.sum_univ_four, designEntry, c2Data,
      diff_data, Matrix.transpose_apply, List.getD] <;>
    norm_num [show ((3 : Fin 4) : ℕ) = 3 from rfl]

/-- C2 helper: the full lag-0 regression outcome on c2Data. -/
theorem c2_ols : perform_ols_regression c2X c2Y = some (c2Coef, 174/35) := by
  unfold perform_ols_regression
  rw [c2_try_inverse]
  dsimp only
  rw [c2_xty]
  have hcoef : ((35 : ℚ)⁻¹ • !![39, (-11 : ℚ); -11, 4]).mulVec ![3, 0] = c2Coef := by
    funext i
    fin_cases i <;>
      simp [Matrix.mulVec, Matrix.dotProduct, Fin.sum_univ_two, Matrix.smul_apply, c2Coef] <;>
      norm_num
  rw [hcoef]
  refine congrArg some ?_
  simp only [Prod.mk.injEq, true_and]
  show Matrix.dotProduct
      (fun (i : Fin 4) =>
        ((diff_data c2Data).drop 0).getD i.1 0 -
          (Matrix.of fun (a : Fin 4) (b : Fin 2) => designEntry c2Data 0 a.1 b.1).mulVec
            (fun (b : Fin 2) => c2Coef b) i)
      (fun (i : Fin 4) =>
        ((diff_data c2Data).drop 0).getD i.1 0 -
          (Matrix.of fun (a : Fin 4) (b : Fin 2) => designEntry c2Data 0 a.1 b.1).mulVec
            (fun (b : Fin 2) => c2Coef b) i) = 174 / 35
  simp [Matrix.dotProduct, Matrix.mulVec, Fin.sum_univ_four, Fin.sum_univ_two,
    c2Coef, designEntry, c2Data, diff_data, List.getD]
  norm_num [show ((3 : Fin 4) : ℕ) = 3 from rfl]

/-- C2 helper: lag 0 is a feasible candidate on c2Data, with the explicit
regression outcome c2Reg. -/
theorem c2_lag0_feasible : calculate_adf_for_lags c2Data 0 = some c2Reg := by
  unfold calculate_adf_for_lags
  rw [c2_buildDesign]
  dsimp only
  rw [c2_ols]
  dsimp only
  rw [c2_try_inverse]
  dsimp only
  have h4 : nObs c2Data 0 = 4 := rfl
  have hidx : (⟨1, by omega⟩ : Fin (2 + 0)) = 1 := rfl
  have hvar : (174 / 35 / ((nObs c2Data 0 - (2 + 0) : ℕ) : ℚ)) *
      ((35 : ℚ)⁻¹ • !![39, -11; -11, 4]) ⟨1, by omega⟩ ⟨1, by omega⟩ = 348 / 1225 := by
    rw [h4, hidx]
    norm_num [Matrix.smul_apply]
  rw [hvar]
  have hmk : ((mkRat 1 1000000000000 : ℚ) : ℝ) = 1 / 1000000000000 := by
    rw [Rat.mkRat_eq_div]
    push_cast
    norm_num
  have hguard : ((mkRat 1 1000000000000 : ℚ) : ℝ) < Real.sqrt ((348 / 1225 : ℚ) : ℝ) := by
    rw [hmk]
    refine (Real.lt_sqrt (by norm_num)).mpr ?_
    push_cast
    norm_num
  rw [if_pos hguard]
  refine congrArg some ?_
  unfold c2Reg
  congr 1

/-- The pipeline entry point always yields a record (totality helper). -/
theorem calc_complete_isSome (data : List ℚ) (mt : String) :
    (calculate_complete_adf_test data mt).isSome := by
  by_cases h5 : data.length < 5
  · simp [calculate_complete_adf_test, h5]
  · rcases hsome : interpolate_p_value (F := ℝ)
      (.num (selectLag data (determine_lag_range data mt).1
        (determine_lag_range data mt).2).stat) with _ | p
    · have := interp_num_isSome (F := ℝ)
        (selectLag data (determine_lag_range data mt).1
          (determine_lag_range data mt).2).stat
      rw [hsome] at this
      simp at this
    · simp [calculate_complete_adf_test, h5, hsome]

theorem aic_minimality_witness :
    (5 ≤ c2Data.length) ∧
    (calculate_complete_adf_test c2Data "ols").isSome ∧
    calculate_adf_for_lags c2Data 0 = some c2Reg ∧
    (determine_lag_range c2Data "ols").1 ≤ 0 ∧ 0 ≤ (determine_lag_range c2Data "ols").2 ∧
    (∀ res, calculate_complete_adf_test c2Data "ols" = some res →
      res.aic_value ≤ (calculate_aic c2Reg.ssr c2Reg.n_obs c2Reg.n_params : WithTop ℝ) ∧
      (res.aic_value = (calculate_aic c2Reg.ssr c2Reg.n_obs c2Reg.n_params : WithTop ℝ) →
        res.optimal_lags ≤ 0) ∧
      ∃ rb, calculate_adf_for_lags c2Data res.optimal_lags = some rb ∧
        res.aic_value = (calculate_aic rb.ssr rb.n_obs rb.n_params : WithTop ℝ) ∧
        res.optimal_lags ≤ (determine_lag_range c2Data "ols").2) :=
  ⟨by decide, calc_complete_isSome c2Data "ols", c2_lag0_feasible, by decide, by decide,
   fun res hres =>
     aic_minimality c2Data "ols" (by decide) res hres 0 (by decide) (by decide)
       c2Reg c2_lag0_feasible⟩

theorem lag_range_rule_witness :
    ("arima" ≠ "ols") ∧
    (determine_lag_range selData "ols" = (0, min 12 ((selData.length - 3) / 2)) ∧
      (determine_lag_range selData "ols").1 = 0 ∧
      (determine_lag_range selData "ols").2 ≤ 12 ∧
      (selData.length < 3 → (determine_lag_range selData "ols").2 = 0) ∧
      determine_lag_range selData "arima" = (0, 1)) :=
  ⟨by decide, lag_range_rule selData "arima" (by decide)⟩

